import Mathlib

/-!
Shallow embedding of the `yann` training toolkit excerpt: the general
utilities (`counter`, `RangeMap`, `pretty_size`), the metrics module
(`Meter`, `exp_moving_avg`, `moving_average`), the `Checkpoint` callback,
and the relevant parts of the supervised `Trainer` (progress counters,
the run loop, `epochs`, and attribute-assignment interception).

Python scalars are modelled as rationals (`ℚ`), Python `None` as
`Option.none`, and raising an exception as returning `Except.error`.
Generators are modelled by fuel-indexed finite approximations: a call
with fuel `f` returns the first at-most-`f` yielded values.
-/

namespace Yann

/-! ## yann/utils/__init__.py : counter -/

/-- Model of `counter(start, end, step)`:
`while end is None or (end and (current < end)): yield current; current += step`.
Note the Python truthiness test `end and ...`: a bound equal to `0` is falsy
and stops the loop immediately.  `counterFuel f` returns the first at most
`f` yielded values. -/
def counterFuel : ℕ → ℤ → Option ℤ → ℤ → List ℤ
  | 0, _, _, _ => []
  | fuel + 1, current, none, step =>
      current :: counterFuel fuel (current + step) none step
  | fuel + 1, current, some e, step =>
      if e ≠ 0 ∧ current < e then
        current :: counterFuel fuel (current + step) (some e) step
      else []

/-! ## yann/metrics.py : Meter -/

/-- State of a `Meter`: `max`, `min` start as `None`; `sum` and `count`
start at `0`. -/
structure Meter where
  max : Option ℚ
  min : Option ℚ
  sum : ℚ
  count : ℕ
deriving Repr, DecidableEq

/-- Model of `Meter.reset` / the state produced by `Meter.__init__`. -/
def Meter.reset : Meter := { max := none, min := none, sum := 0, count := 0 }

/-- Model of `Meter.update(val)`. -/
def Meter.update (m : Meter) (val : ℚ) : Meter :=
  { max :=
      match m.max with
      | none => some val
      | some x => if val > x then some val else some x
    min :=
      match m.min with
      | none => some val
      | some x => if val < x then some val else some x
    sum := m.sum + val
    count := m.count + 1 }

/-- Folding a sequence of observations into a meter with repeated `update`. -/
def Meter.updates (m : Meter) (vals : List ℚ) : Meter :=
  vals.foldl Meter.update m

/-- Model of `Meter.average()`: `self.sum / self.count`; Python integer/float division
by a zero count raises `ZeroDivisionError`. -/
def Meter.average (m : Meter) : Except String ℚ :=
  if m.count = 0 then Except.error "ZeroDivisionError: division by zero"
  else Except.ok (m.sum / (m.count : ℚ))

/-! ## yann/metrics.py : exp_moving_avg -/

/-- Model of `exp_moving_avg(cur, prev=None, alpha=.05, steps=None)`.
The bias-correction branch is guarded by the truthiness test `if steps`,
so both `steps=None` and `steps=0` skip the correction; the division
raises `ZeroDivisionError` when `1 - alpha ** steps == 0`. -/
def exp_moving_avg (cur : ℚ) (prev : Option ℚ) (alpha : ℚ) (steps : Option ℕ) :
    Except String ℚ :=
  match prev with
  | none => Except.ok cur
  | some p =>
      let avg := alpha * cur + p * (1 - alpha)
      match steps with
      | none => Except.ok avg
      | some s =>
          if s ≠ 0 then
            if 1 - alpha ^ s = 0 then
              Except.error "ZeroDivisionError: division by zero"
            else Except.ok (avg / (1 - alpha ^ s))
          else Except.ok avg

/-! ## yann/metrics.py : moving_average -/

/-- Model of `np.cumsum(np.insert(data, 0, 0))`: the list of running sums of `data`
with a leading `0`, length `data.length + 1`. -/
def cumsum (data : List ℚ) : List ℚ :=
  data.scanl (· + ·) 0

/-- Elementwise numpy subtraction of two 1-d arrays, with numpy's
broadcasting rule for length-1 operands; incompatible shapes raise. -/
def npSub (a b : List ℚ) : Except String (List ℚ) :=
  if a.length = b.length then
    Except.ok ((a.zip b).map fun p => p.1 - p.2)
  else if a.length = 1 then
    Except.ok (b.map fun y => a.headD 0 - y)
  else if b.length = 1 then
    Except.ok (a.map fun x => x - b.headD 0)
  else Except.error "ValueError: operands could not be broadcast together"

/-- Model of `moving_average(data, window)`:
`cumsum = np.cumsum(np.insert(data, 0, 0))`
`return (cumsum[window:] - cumsum[:-window]) / float(window)`.
The Python slice `[:-window]` is `[:0]` (empty) when `window = 0`. -/
def moving_average (data : List ℚ) (window : ℕ) : Except String (List ℚ) :=
  let cs := cumsum data
  let a := cs.drop window
  let b := if window = 0 then [] else cs.take (cs.length - window)
  (npSub a b).map fun diffs => diffs.map fun d => d / (window : ℚ)

/-! ## yann/utils/__init__.py : RangeMap -/

/-- A `RangeMap`'s backing dict: keys are `(min, max)` pairs of optional
bounds, values of type `V`, kept in insertion order. -/
def RangeMap (V : Type) : Type := List ((Option ℚ × Option ℚ) × V)

/-- Model of `dict.__getitem__` on the backing dict (what `super().__getitem__(item)`
does for a tuple key): direct key access, raising `KeyError` when absent.
Python dicts keep at most one entry per key, so first-match access agrees
with dict access on well-formed maps. -/
def dictGetItem {V : Type} (m : RangeMap V) (k : Option ℚ × Option ℚ) :
    Except String V :=
  match m.find? (fun e => e.1 = k) with
  | some e => Except.ok e.2
  | none => Except.error "KeyError"

/-- The scalar branch of `RangeMap.__getitem__`: scan the entries in
insertion order, skipping an entry when `min is not None and item < min`
or `max is not None and item > max`, returning the first remaining value;
raise `KeyError` when the scan is exhausted (or the item is `None`). -/
def rangeScan {V : Type} (m : RangeMap V) (item : ℚ) : Except String V :=
  match m with
  | [] => Except.error "KeyError: does not fall in any of the ranges"
  | ((mn, mx), v) :: rest =>
      if (match mn with | some l => decide (item < l) | none => false) then
        rangeScan rest item
      else if (match mx with | some u => decide (item > u) | none => false) then
        rangeScan rest item
      else Except.ok v

/-- Spec-side notion for the refinement statement: the interval `(min, max)`
contains `x` when `x` is within both bounds (an absent bound is unbounded on
that side, and both bounds are inclusive). -/
def intervalContains (r : Option ℚ × Option ℚ) (x : ℚ) : Bool :=
  (match r.1 with | some l => decide (l ≤ x) | none => true) &&
  (match r.2 with | some u => decide (x ≤ u) | none => true)

/-- A key passed to `RangeMap.__getitem__`: a tuple, a scalar, or `None`. -/
inductive RMKey
  | tuple (k : Option ℚ × Option ℚ)
  | scalar (x : ℚ)
  | null
deriving Repr, DecidableEq

/-- Model of `RangeMap.__getitem__(item)`: tuples go straight to dict access; a
non-`None` scalar is matched against the ranges in insertion order;
anything else raises `KeyError`. -/
def RangeMap.getItem {V : Type} (m : RangeMap V) : RMKey → Except String V
  | RMKey.tuple k => dictGetItem m k
  | RMKey.scalar x => rangeScan m x
  | RMKey.null => Except.error "KeyError: does not fall in any of the ranges"

/-! ## yann/utils/__init__.py : pretty_size -/

/-- The unit ladder of `pretty_size`. -/
def sizeUnits : List String := ["bytes", "KB", "MB", "GB", "TB"]

/-- The loop of `pretty_size`: at each unit, if `num < 1024` return the
value (to be rendered to one decimal place) paired with the unit, else
divide by `1024` and move to the next unit; falling off the end of the
unit list returns `None`. -/
def prettySizeGo : ℚ → List String → Option (ℚ × String)
  | _, [] => none
  | num, u :: rest =>
      if num < 1024 then some (num, u) else prettySizeGo (num / 1024) rest

/-- Model of `pretty_size(bytes)` on a non-negative integer byte count; the result
is the exact value handed to the `f'{num:3.1f} {unit}'` format together
with the chosen unit, or `None` when the loop exhausts the units. -/
def pretty_size (bytes : ℕ) : Option (ℚ × String) :=
  prettySizeGo (bytes : ℚ) sizeUnits

/-! ## yann/callbacks/checkpoint.py : Checkpoint -/

/-- An effect performed on the trainer by a callback; `checkpoint name`
records a call `trainer.checkpoint()` with its optional explicit name. -/
inductive TrainerOp
  | checkpoint (name : Option String)
deriving Repr, DecidableEq

/-- State of the `Checkpoint` callback: the epoch frequency. -/
structure Checkpoint where
  freq : ℕ
deriving Repr, DecidableEq

/-- Model of `Checkpoint.on_epoch_end(epoch, ...)`: when `epoch % self.freq == 0`
call `trainer.checkpoint()` with no name.  The returned list records the
trainer operations performed by the hook.  Python's `%` raises
`ZeroDivisionError` on a zero modulus. -/
def Checkpoint.on_epoch_end (c : Checkpoint) (epoch : ℕ) :
    Except String (List TrainerOp) :=
  if c.freq = 0 then
    Except.error "ZeroDivisionError: integer division or modulo by zero"
  else if epoch % c.freq = 0 then Except.ok [TrainerOp.checkpoint none]
  else Except.ok []

/-- The callback events of the pipeline other than epoch-end. -/
inductive CallbackEvent
  | train_start | train_end | epoch_start | step_start | step_end
  | step_error | validation_start | validation_batch | validation_end
  | error
deriving Repr, DecidableEq

/-- Modelled from the spec: the externally defined `Callback` base class
(`yann/callbacks/base.py`, not in the excerpt) provides no-op default
handlers for every event; `Checkpoint` overrides only `on_epoch_end`, so
every other event performs no trainer operation. -/
def Checkpoint.on_event (_ : Checkpoint) (_ : CallbackEvent) : List TrainerOp :=
  []

/-! ## yann/train/supervised.py : progress counters and run loop -/

/-- The three progress counters of `TrainState`, all initialized to `0`
by `Trainer.__init__`. -/
structure TrainState where
  num_steps : ℕ
  num_samples : ℕ
  num_epochs : ℕ
deriving Repr, DecidableEq

/-- The counter state right after `Trainer.__init__`. -/
def TrainState.init : TrainState :=
  { num_steps := 0, num_samples := 0, num_epochs := 0 }

/-- The counter updates of one loop body iteration of `run`:
`self.num_steps += 1; self.num_samples += len(inputs)`.  A batch is
modelled by its list of inputs. -/
def TrainState.stepCounters (st : TrainState) (inputs : List ℤ) : TrainState :=
  { st with
      num_steps := st.num_steps + 1
      num_samples := st.num_samples + inputs.length }

/-- The inner batch loop of `run` over one pass of the loader: each batch
runs `step` and advances the step and sample counters. -/
def TrainState.runBatches (st : TrainState) (loader : List (List ℤ)) :
    TrainState :=
  loader.foldl TrainState.stepCounters st

/-- The `epochs` generator resumed after a fully consumed epoch body runs
`self.num_epochs += 1`. -/
def TrainState.endEpoch (st : TrainState) : TrainState :=
  { st with num_epochs := st.num_epochs + 1 }

/-- Model of `run(epochs=num)` with a concrete epoch count and no early stop: `num`
iterations of the batch loop, each followed by the epoch-counter increment
performed when the `epochs` generator is resumed. -/
def TrainState.run (st : TrainState) (num : ℕ) (loader : List (List ℤ)) :
    TrainState :=
  match num with
  | 0 => st
  | n + 1 => TrainState.run ((st.runBatches loader).endEpoch) n loader

/-! ## yann/train/supervised.py : Trainer.epochs -/

/-- Model of `Trainer.epochs(num)`: the sequence of yielded epoch indices together
with the final counter state.  The generator body iterates
`counter(start=self.num_epochs, end=self.num_epochs + num)` and increments
`self.num_epochs` after each yield; with `num=None` the expression
`self.num_epochs + num` raises `TypeError` as soon as the first element is
requested.  `fuel` bounds the number of elements consumed. -/
def TrainState.epochs (st : TrainState) (num : Option ℕ) (fuel : ℕ) :
    Except String (List ℤ × TrainState) :=
  match num with
  | none =>
      Except.error
        "TypeError: unsupported operand type(s) for +: int and NoneType"
  | some n =>
      let ys := counterFuel fuel (st.num_epochs : ℤ)
        (some ((st.num_epochs : ℤ) + (n : ℤ))) 1
      Except.ok (ys, { st with num_epochs := st.num_epochs + ys.length })

/-! ## yann/train/supervised.py : Trainer.__setattr__ -/

/-- The attributes of the trainer that `Trainer.__setattr__` inspects for
the loader/batch-size/dataset invariant, in a post-construction state
(every attribute exists, so the `hasattr` probes are all true).  A loader
is a Python object whose truthiness (`if self.loader:`) is its `__len__`;
datasets are identified by an integer id. -/
structure TrainerAttrs where
  loader : Option ℕ
  batch_size : Option ℤ
  dataset : Option ℤ
deriving Repr, DecidableEq

/-- Truthiness of `self.loader`: `None` is falsy, a bound `DataLoader` is
truthy iff its length is nonzero. -/
def TrainerAttrs.loaderTruthy (t : TrainerAttrs) : Bool :=
  match t.loader with
  | none => false
  | some len => len ≠ 0

/-- Model of `Trainer.__setattr__(self, 'batch_size', value)` after construction:
the guard `key == 'batch_size' and hasattr(self, 'batch_size') and
self.batch_size != key` holds (the attribute exists and an int-or-`None`
batch size never equals the string `'batch_size'`), so when
`hasattr(self, 'loader') and self.loader` the assignment raises
`ValueError`; otherwise the write goes through `super().__setattr__`. -/
def TrainerAttrs.setBatchSize (t : TrainerAttrs) (value : ℤ) :
    Except String TrainerAttrs :=
  if t.loaderTruthy then
    Except.error
      "ValueError: Cannot modify batch_size because a loader is defined"
  else Except.ok { t with batch_size := some value }

/-- Model of `Trainer.__setattr__(self, 'dataset', value)` after construction: the
guard for `dataset` at supervised.py:432 is nested inside the
`key == 'batch_size'` branch, so for `key == 'dataset'` no branch fires
and the write goes straight through `super().__setattr__`. -/
def TrainerAttrs.setDataset (t : TrainerAttrs) (value : ℤ) :
    Except String TrainerAttrs :=
  Except.ok { t with dataset := some value }

/-! ## Helper lemmas -/

/-- With a nonnegative start, unit step, and bound `start + n`, the counter
yields exactly the `n` consecutive integers from `start` (given fuel at
least `n`). -/
theorem counterFuel_consecutive (n : ℕ) :
    ∀ (fuel : ℕ) (start : ℤ), 0 ≤ start → n ≤ fuel →
      counterFuel fuel start (some (start + (n : ℤ))) 1 =
        (List.range n).map (fun i : ℕ => start + (i : ℤ)) := by
  induction n with
  | zero =>
      intro fuel start _ _
      cases fuel with
      | zero => simp [counterFuel]
      | succ f => simp [counterFuel]
  | succ n ih =>
      intro fuel start h0 hn
      cases fuel with
      | zero => omega
      | succ f =>
          have hcond : ((start + ((n + 1 : ℕ) : ℤ)) ≠ 0 ∧
              start < start + ((n + 1 : ℕ) : ℤ)) := by
            constructor <;> [push_cast; push_cast] <;> omega
          rw [counterFuel, if_pos hcond]
          have harg : start + ((n + 1 : ℕ) : ℤ) = (start + 1) + (n : ℤ) := by
            push_cast; ring
          rw [harg, ih f (start + 1) (by omega) (by omega)]
          rw [List.range_succ_eq_map, List.map_cons, List.map_map]
          refine congrArg₂ _ (by norm_num) (List.map_congr_left ?_)
          intro a _
          simp [Function.comp]
          ring

/-- With no bound the counter never stops: fuel `f` yields the first `f`
elements of the arithmetic progression. -/
theorem counterFuel_none_eq (step : ℤ) :
    ∀ (f : ℕ) (start : ℤ), counterFuel f start none step =
      (List.range f).map (fun i : ℕ => start + step * (i : ℤ)) := by
  intro f
  induction f with
  | zero => intro start; simp [counterFuel]
  | succ f ih =>
      intro start
      rw [counterFuel, ih (start + step)]
      rw [List.range_succ_eq_map, List.map_cons, List.map_map]
      refine congrArg₂ _ (by norm_num) (List.map_congr_left ?_)
      intro a _
      simp [Function.comp]
      ring

/-- With a nonzero bound and positive step, the counter yields exactly the
elements of the arithmetic progression that lie strictly below the bound. -/
theorem counterFuel_filter_eq (step e : ℤ) (hstep : 1 ≤ step) (he : e ≠ 0) :
    ∀ (f : ℕ) (start : ℤ), counterFuel f start (some e) step =
      ((List.range f).map (fun i : ℕ => start + step * (i : ℤ))).filter
        (fun x => decide (x < e)) := by
  intro f
  induction f with
  | zero => intro start; simp [counterFuel]
  | succ f ih =>
      intro start
      by_cases hlt : start < e
      · rw [counterFuel, if_pos ⟨he, hlt⟩, ih (start + step)]
        rw [List.range_succ_eq_map, List.map_cons, List.map_map,
          List.filter_cons, if_pos (by simpa using hlt)]
        refine congrArg₂ _ (by norm_num) (congrArg _ (List.map_congr_left ?_))
        intro a _
        simp [Function.comp]
        ring
      · rw [counterFuel, if_neg (fun h => hlt h.2)]
        symm
        rw [List.filter_eq_nil_iff]
        intro a ha
        simp only [List.mem_map, List.mem_range] at ha
        obtain ⟨i, -, rfl⟩ := ha
        simp only [decide_eq_true_eq]
        have h1 : e ≤ start := le_of_not_lt hlt
        have h2 : (0 : ℤ) ≤ step * (i : ℤ) := by positivity
        linarith

/-- Once the fuel reaches `(e - start).toNat`, the bounded counter has
terminated: more fuel yields the same list. -/
theorem counterFuel_stable (start step e : ℤ) (hstep : 1 ≤ step) (he : e ≠ 0)
    (f : ℕ) (hf : (e - start).toNat ≤ f) :
    counterFuel f start (some e) step =
      counterFuel (e - start).toNat start (some e) step := by
  rw [counterFuel_filter_eq step e hstep he f start,
    counterFuel_filter_eq step e hstep he _ start]
  set N := (e - start).toNat with hN
  have hsplit : f = N + (f - N) := by omega
  rw [hsplit, List.range_add, List.map_append, List.filter_append]
  have hnil : (((List.range (f - N)).map (fun x => N + x)).map
      (fun i : ℕ => start + step * (i : ℤ))).filter
        (fun x => decide (x < e)) = [] := by
    rw [List.filter_eq_nil_iff]
    intro a ha
    simp only [List.map_map, List.mem_map, List.mem_range, Function.comp] at ha
    obtain ⟨j, -, rfl⟩ := ha
    simp only [decide_eq_true_eq]
    have h1 : e - start ≤ (N : ℤ) := by rw [hN]; exact Int.self_le_toNat _
    have h2 : (((N + j : ℕ) : ℤ)) ≤ step * ((N + j : ℕ) : ℤ) :=
      le_mul_of_one_le_left (by positivity) hstep
    push_cast at h1 h2 ⊢
    linarith
  rw [hnil, List.append_nil]

/-! ## Claim theorems -/

/-- C1: on a Trainer with a (truthy) loader bound, assigning `batch_size`
raises and leaves the attribute unchanged, but — contrary to the claim —
assigning `dataset` raises nothing and silently replaces the dataset: the
`dataset` guard at supervised.py:432 sits inside the `key == 'batch_size'`
branch and can never fire. -/
theorem setattr_guard_eval :
    TrainerAttrs.setBatchSize
        { loader := some 5, batch_size := some 32, dataset := some 1 } 64 =
      Except.error
        "ValueError: Cannot modify batch_size because a loader is defined" ∧
    TrainerAttrs.setDataset
        { loader := some 5, batch_size := some 32, dataset := some 1 } 2 =
      Except.ok { loader := some 5, batch_size := some 32, dataset := some 2 } :=
  ⟨rfl, rfl⟩

/-- C3: `epochs(num=None)` raises `TypeError` as soon as the first epoch
index is requested (`self.num_epochs + None`), for any fuel — the
sequence is never infinite; with `num = n` given, any sufficient fuel
`n + extra` yields exactly the `n` consecutive indices starting at the
current epoch counter and leaves the counter advanced by `n`. -/
theorem epochs_spec :
    (∀ (st : TrainState) (fuel : ℕ),
      st.epochs none fuel =
        Except.error
          "TypeError: unsupported operand type(s) for +: int and NoneType") ∧
    (∀ (st : TrainState) (n extra : ℕ),
      st.epochs (some n) (n + extra) =
        Except.ok ((List.range n).map (fun i : ℕ => (st.num_epochs : ℤ) + (i : ℤ)),
          { st with num_epochs := st.num_epochs + n })) := by
  constructor
  · intro st fuel
    rfl
  · intro st n extra
    have h := counterFuel_consecutive n (n + extra) (st.num_epochs : ℤ)
      (by positivity) (Nat.le_add_right n extra)
    simp [TrainState.epochs, h]

/-- C9: for a positive frequency, an epoch-end event invokes the trainer's
checkpoint operation with no explicit name exactly when
`epoch % freq = 0`, and performs nothing otherwise; every other callback
event is a no-op for this component. -/
theorem checkpoint_freq_spec (freq epoch : ℕ) (h : 0 < freq) :
    ((Checkpoint.mk freq).on_epoch_end epoch =
        Except.ok [TrainerOp.checkpoint none] ↔ epoch % freq = 0) ∧
    ((Checkpoint.mk freq).on_epoch_end epoch = Except.ok [] ↔
        ¬ epoch % freq = 0) ∧
    (∀ ev : CallbackEvent, (Checkpoint.mk freq).on_event ev = []) := by
  have hne : freq ≠ 0 := Nat.pos_iff_ne_zero.mp h
  refine ⟨?_, ?_, fun _ => rfl⟩ <;>
  · unfold Checkpoint.on_epoch_end
    rw [if_neg (by simpa using hne)]
    split_ifs with hmod <;> simp [hmod]

/-- Witness for C9 at `freq = 2` over epoch-end events `0, 1, 2, 3`:
the checkpoint operation fires exactly for epochs `0` and `2`. -/
theorem checkpoint_freq_spec_witness :
    (Checkpoint.mk 2).on_epoch_end 0 = Except.ok [TrainerOp.checkpoint none] ∧
    (Checkpoint.mk 2).on_epoch_end 1 = Except.ok [] ∧
    (Checkpoint.mk 2).on_epoch_end 2 = Except.ok [TrainerOp.checkpoint none] ∧
    (Checkpoint.mk 2).on_epoch_end 3 = Except.ok [] :=
  ⟨((checkpoint_freq_spec 2 0 (by decide)).1).mpr (by decide),
   ((checkpoint_freq_spec 2 1 (by decide)).2.1).mpr (by decide),
   ((checkpoint_freq_spec 2 2 (by decide)).1).mpr (by decide),
   ((checkpoint_freq_spec 2 3 (by decide)).2.1).mpr (by decide)⟩

/-- C6 counterexample: with `steps = 0` supplied, the code skips the bias
correction (the truthiness test `if steps` treats `0` as absent) and
returns the blended value `11/2`; the claim's formula would divide by
`1 - alpha ** 0 = 0`, which does not reproduce that value. -/
theorem exp_moving_avg_steps_zero_cex :
    exp_moving_avg 10 (some 5) (1 / 10) (some 0) = Except.ok (11 / 2) ∧
    (11 / 2 : ℚ) / (1 - (1 / 10 : ℚ) ^ (0 : ℕ)) ≠ (11 / 2 : ℚ) := by
  constructor
  · norm_num [exp_moving_avg]
  · norm_num

/-- C6 amended: with no previous average the current value is returned
unchanged regardless of `steps`; with a previous average the blended
value `alpha*cur + prev*(1-alpha)` is computed, and the bias correction
divides by `1 - alpha^steps` only for a supplied nonzero step count with
a nonzero divisor (a zero divisor raises, and `steps = 0` is treated as
absent). -/
theorem exp_moving_avg_spec (cur p alpha : ℚ) (s : ℕ) :
    (∀ st : Option ℕ, exp_moving_avg cur none alpha st = Except.ok cur) ∧
    exp_moving_avg cur (some p) alpha none =
      Except.ok (alpha * cur + p * (1 - alpha)) ∧
    exp_moving_avg cur (some p) alpha (some 0) =
      Except.ok (alpha * cur + p * (1 - alpha)) ∧
    (s ≠ 0 → 1 - alpha ^ s ≠ 0 →
      exp_moving_avg cur (some p) alpha (some s) =
        Except.ok ((alpha * cur + p * (1 - alpha)) / (1 - alpha ^ s))) ∧
    (s ≠ 0 → 1 - alpha ^ s = 0 →
      exp_moving_avg cur (some p) alpha (some s) =
        Except.error "ZeroDivisionError: division by zero") := by
  refine ⟨fun _ => rfl, rfl, rfl, ?_, ?_⟩
  · intro hs hd
    simp [exp_moving_avg, hs, hd]
  · intro hs hd
    simp [exp_moving_avg, hs, hd]

/-- Witness for C6 at `cur = 10`, `prev = 5`, `alpha = 1/10`, `steps = 2`. -/
theorem exp_moving_avg_spec_witness :
    exp_moving_avg 10 (some 5) (1 / 10) (some 2) =
      Except.ok (((1 / 10) * 10 + 5 * (1 - 1 / 10)) / (1 - (1 / 10 : ℚ) ^ (2 : ℕ))) :=
  (exp_moving_avg_spec 10 5 (1 / 10) 2).2.2.2.1 (by decide) (by norm_num)

/-- C4 counterexample: `counter(-3, 0, 1)` yields nothing — the bound `0` is
falsy, so `end and (current < end)` is false immediately — although the
progression elements strictly below the bound are `-3, -2, -1`. -/
theorem counter_zero_end_cex :
    counterFuel 3 (-3) (some 0) 1 = [] ∧
    ((List.range 3).map (fun i : ℕ => (-3 : ℤ) + 1 * (i : ℤ))).filter
        (fun x => decide (x < (0 : ℤ))) = [-3, -2, -1] ∧
    counterFuel 3 (-3) (some 0) 1 ≠
      ((List.range 3).map (fun i : ℕ => (-3 : ℤ) + 1 * (i : ℤ))).filter
        (fun x => decide (x < (0 : ℤ))) :=
  ⟨by decide, by decide, by decide⟩

/-- C4 amended: for a positive step and a nonzero bound, the counter yields
exactly the arithmetic-progression elements strictly below the (exclusive)
bound and then stops (the output is stable once the fuel reaches
`(end - start).toNat`); with an absent bound the sequence is infinite —
every fuel `g` yields `g` elements. -/
theorem counter_spec (start step e : ℤ) (f : ℕ) (hstep : 1 ≤ step)
    (he : e ≠ 0) :
    counterFuel f start (some e) step =
      ((List.range f).map (fun i : ℕ => start + step * (i : ℤ))).filter
        (fun x => decide (x < e)) ∧
    ((e - start).toNat ≤ f →
      counterFuel f start (some e) step =
        counterFuel (e - start).toNat start (some e) step) ∧
    (∀ g : ℕ, counterFuel g start none step =
      (List.range g).map (fun i : ℕ => start + step * (i : ℤ))) :=
  ⟨counterFuel_filter_eq step e hstep he f start,
   fun hf => counterFuel_stable start step e hstep he f hf,
   fun g => counterFuel_none_eq step g start⟩

/-- Witness for C4 at `start = 0`, `step = 1`, `end = 5`, fuel `7`:
the counter yields `[0, 1, 2, 3, 4]`. -/
theorem counter_spec_witness :
    counterFuel 7 0 (some 5) 1 =
      ((List.range 7).map (fun i : ℕ => (0 : ℤ) + 1 * (i : ℤ))).filter
        (fun x => decide (x < (5 : ℤ))) :=
  (counter_spec 0 1 5 7 (by decide) (by decide)).1

/-- C8: scalar lookup in a `RangeMap` returns the value of the first
interval in insertion order containing the key (both bounds inclusive,
absent bounds unbounded) and raises `KeyError` when no interval contains
it; tuple lookup bypasses interval matching and is direct dict access. -/
theorem rangeMap_getItem_spec {V : Type} (m : RangeMap V) (x : ℚ)
    (k : Option ℚ × Option ℚ) :
    (RangeMap.getItem m (RMKey.scalar x) =
      match m.find? (fun e => intervalContains e.1 x) with
      | some e => Except.ok e.2
      | none =>
          Except.error "KeyError: does not fall in any of the ranges") ∧
    RangeMap.getItem m (RMKey.tuple k) = dictGetItem m k := by
  refine ⟨?_, rfl⟩
  show rangeScan m x = _
  induction m with
  | nil => rfl
  | cons hd tl ih =>
      obtain ⟨⟨mn, mx⟩, v⟩ := hd
      rw [List.find?_cons]
      cases mn with
      | none =>
          cases mx with
          | none => simp [rangeScan, intervalContains]
          | some u =>
              by_cases hu : x ≤ u
              · simp [rangeScan, intervalContains, hu, not_lt.mpr hu]
              · simp [rangeScan, intervalContains, hu, lt_of_not_le hu, ih]
      | some l =>
          cases mx with
          | none =>
              by_cases hl : l ≤ x
              · simp [rangeScan, intervalContains, hl, not_lt.mpr hl]
              · simp [rangeScan, intervalContains, hl, lt_of_not_le hl, ih]
          | some u =>
              by_cases hl : l ≤ x
              · by_cases hu : x ≤ u
                · simp [rangeScan, intervalContains, hl, hu,
                    not_lt.mpr hl, not_lt.mpr hu]
                · simp [rangeScan, intervalContains, hl, hu,
                    not_lt.mpr hl, lt_of_not_le hu, ih]
              · simp [rangeScan, intervalContains, hl, lt_of_not_le hl, ih]

/-- C10: `pretty_size` walks the unit ladder bytes/KB/MB/GB/TB by
successive division by 1024, returning the value rendered at one decimal
together with the chosen unit, and returns `None` for byte counts of
`1024^5` and above. -/
theorem pretty_size_spec (b : ℕ) :
    (b < 1024 → pretty_size b = some ((b : ℚ), "bytes")) ∧
    (1024 ≤ b → b < 1024 ^ 2 → pretty_size b = some ((b : ℚ) / 1024, "KB")) ∧
    (1024 ^ 2 ≤ b → b < 1024 ^ 3 →
      pretty_size b = some ((b : ℚ) / 1024 ^ 2, "MB")) ∧
    (1024 ^ 3 ≤ b → b < 1024 ^ 4 →
      pretty_size b = some ((b : ℚ) / 1024 ^ 3, "GB")) ∧
    (1024 ^ 4 ≤ b → b < 1024 ^ 5 →
      pretty_size b = some ((b : ℚ) / 1024 ^ 4, "TB")) ∧
    (1024 ^ 5 ≤ b → pretty_size b = none) := by
  have cast_le : ∀ k : ℕ, 1024 ^ k ≤ b → ((1024 : ℚ) ^ k ≤ (b : ℚ)) := by
    intro k hk
    exact_mod_cast hk
  have cast_lt : ∀ k : ℕ, b < 1024 ^ k → ((b : ℚ) < (1024 : ℚ) ^ k) := by
    intro k hk
    exact_mod_cast hk
  refine ⟨?_, ?_, ?_, ?_, ?_, ?_⟩
  · intro h
    have hq : (b : ℚ) < 1024 := by exact_mod_cast h
    simp [pretty_size, sizeUnits, prettySizeGo, hq]
  · intro h1 h2
    have q1 : ¬ ((b : ℚ) < 1024) := by
      rw [not_lt]
      exact_mod_cast h1
    have q2 : (b : ℚ) / 1024 < 1024 := by
      rw [div_lt_iff₀ (by norm_num)]
      have := cast_lt 2 h2
      norm_num at this ⊢
      linarith
    simp [pretty_size, sizeUnits, prettySizeGo, q1, q2]
  · intro h1 h2
    have q1 : ¬ ((b : ℚ) < 1024) := by
      rw [not_lt]
      have := cast_le 2 h1
      norm_num at this ⊢
      linarith
    have q2 : ¬ ((b : ℚ) / 1024 < 1024) := by
      rw [not_lt, le_div_iff₀ (by norm_num)]
      have := cast_le 2 h1
      norm_num at this ⊢
      linarith
    have q3 : (b : ℚ) / 1024 / 1024 < 1024 := by
      rw [div_div, div_lt_iff₀ (by norm_num)]
      have := cast_lt 3 h2
      norm_num at this ⊢
      linarith
    have e : (b : ℚ) / 1024 ^ 2 = (b : ℚ) / 1024 / 1024 := by ring
    rw [e]
    simp [pretty_size, sizeUnits, prettySizeGo, q1, q2, q3]
  · intro h1 h2
    have q1 : ¬ ((b : ℚ) < 1024) := by
      rw [not_lt]
      have := cast_le 3 h1
      norm_num at this ⊢
      linarith
    have q2 : ¬ ((b : ℚ) / 1024 < 1024) := by
      rw [not_lt, le_div_iff₀ (by norm_num)]
      have := cast_le 3 h1
      norm_num at this ⊢
      linarith
    have q3 : ¬ ((b : ℚ) / 1024 / 1024 < 1024) := by
      rw [div_div, not_lt, le_div_iff₀ (by norm_num)]
      have := cast_le 3 h1
      norm_num at this ⊢
      linarith
    have q4 : (b : ℚ) / 1024 / 1024 / 1024 < 1024 := by
      rw [div_div, div_div, div_lt_iff₀ (by norm_num)]
      have := cast_lt 4 h2
      norm_num at this ⊢
      linarith
    have e : (b : ℚ) / 1024 ^ 3 = (b : ℚ) / 1024 / 1024 / 1024 := by ring
    rw [e]
    simp [pretty_size, sizeUnits, prettySizeGo, q1, q2, q3, q4]
  · intro h1 h2
    have q1 : ¬ ((b : ℚ) < 1024) := by
      rw [not_lt]
      have := cast_le 4 h1
      norm_num at this ⊢
      linarith
    have q2 : ¬ ((b : ℚ) / 1024 < 1024) := by
      rw [not_lt, le_div_iff₀ (by norm_num)]
      have := cast_le 4 h1
      norm_num at this ⊢
      linarith
    have q3 : ¬ ((b : ℚ) / 1024 / 1024 < 1024) := by
      rw [div_div, not_lt, le_div_iff₀ (by norm_num)]
      have := cast_le 4 h1
      norm_num at this ⊢
      linarith
    have q4 : ¬ ((b : ℚ) / 1024 / 1024 / 1024 < 1024) := by
      rw [div_div, div_div, not_lt, le_div_iff₀ (by norm_num)]
      have := cast_le 4 h1
      norm_num at this ⊢
      linarith
    have q5 : (b : ℚ) / 1024 / 1024 / 1024 / 1024 < 1024 := by
      rw [div_div, div_div, div_div, div_lt_iff₀ (by norm_num)]
      have := cast_lt 5 h2
      norm_num at this ⊢
      linarith
    have e : (b : ℚ) / 1024 ^ 4 = (b : ℚ) / 1024 / 1024 / 1024 / 1024 := by
      ring
    rw [e]
    simp [pretty_size, sizeUnits, prettySizeGo, q1, q2, q3, q4, q5]
  · intro h1
    have q1 : ¬ ((b : ℚ) < 1024) := by
      rw [not_lt]
      have := cast_le 5 h1
      norm_num at this ⊢
      linarith
    have q2 : ¬ ((b : ℚ) / 1024 < 1024) := by
      rw [not_lt, le_div_iff₀ (by norm_num)]
      have := cast_le 5 h1
      norm_num at this ⊢
      linarith
    have q3 : ¬ ((b : ℚ) / 1024 / 1024 < 1024) := by
      rw [div_div, not_lt, le_div_iff₀ (by norm_num)]
      have := cast_le 5 h1
      norm_num at this ⊢
      linarith
    have q4 : ¬ ((b : ℚ) / 1024 / 1024 / 1024 < 1024) := by
      rw [div_div, div_div, not_lt, le_div_iff₀ (by norm_num)]
      have := cast_le 5 h1
      norm_num at this ⊢
      linarith
    have q5 : ¬ ((b : ℚ) / 1024 / 1024 / 1024 / 1024 < 1024) := by
      rw [div_div, div_div, div_div, not_lt, le_div_iff₀ (by norm_num)]
      have := cast_le 5 h1
      norm_num at this ⊢
      linarith
    simp [pretty_size, sizeUnits, prettySizeGo, q1, q2, q3, q4, q5]

/-- Witness for C10 at `b = 2048`: two KB. -/
theorem pretty_size_spec_witness :
    pretty_size 2048 = some ((2048 : ℚ) / 1024, "KB") :=
  (pretty_size_spec 2048).2.1 (by norm_num) (by norm_num)

/-- A left fold of `max` lands on one of the folded elements. -/
theorem foldl_max_mem (l : List ℚ) : ∀ a : ℚ, l.foldl max a ∈ a :: l := by
  induction l with
  | nil => intro a; simp
  | cons x xs ih =>
      intro a
      rw [List.foldl_cons]
      rcases List.mem_cons.mp (ih (max a x)) with h | h
      · rcases max_choice a x with hc | hc
        · rw [h, hc]
          exact List.mem_cons_self _ _
        · rw [h, hc]
          exact List.mem_cons_of_mem _ (List.mem_cons_self _ _)
      · exact List.mem_cons_of_mem _ (List.mem_cons_of_mem _ h)

/-- A left fold of `max` bounds every folded element from above. -/
theorem le_foldl_max (l : List ℚ) :
    ∀ a x : ℚ, x ∈ a :: l → x ≤ l.foldl max a := by
  induction l with
  | nil =>
      intro a x hx
      simp only [List.mem_singleton] at hx
      simp [hx]
  | cons y ys ih =>
      intro a x hx
      rw [List.foldl_cons]
      have hacc : max a y ≤ ys.foldl max (max a y) :=
        ih (max a y) (max a y) (List.mem_cons_self _ _)
      rcases List.mem_cons.mp hx with rfl | hx
      · exact le_trans (le_max_left x y) hacc
      · rcases List.mem_cons.mp hx with rfl | hx
        · exact le_trans (le_max_right a x) hacc
        · exact ih (max a y) x (List.mem_cons_of_mem _ hx)

/-- A left fold of `min` lands on one of the folded elements. -/
theorem foldl_min_mem (l : List ℚ) : ∀ a : ℚ, l.foldl min a ∈ a :: l := by
  induction l with
  | nil => intro a; simp
  | cons x xs ih =>
      intro a
      rw [List.foldl_cons]
      rcases List.mem_cons.mp (ih (min a x)) with h | h
      · rcases min_choice a x with hc | hc
        · rw [h, hc]
          exact List.mem_cons_self _ _
        · rw [h, hc]
          exact List.mem_cons_of_mem _ (List.mem_cons_self _ _)
      · exact List.mem_cons_of_mem _ (List.mem_cons_of_mem _ h)

/-- A left fold of `min` bounds every folded element from below. -/
theorem foldl_min_le (l : List ℚ) :
    ∀ a x : ℚ, x ∈ a :: l → l.foldl min a ≤ x := by
  induction l with
  | nil =>
      intro a x hx
      simp only [List.mem_singleton] at hx
      simp [hx]
  | cons y ys ih =>
      intro a x hx
      rw [List.foldl_cons]
      have hacc : ys.foldl min (min a y) ≤ min a y :=
        ih (min a y) (min a y) (List.mem_cons_self _ _)
      rcases List.mem_cons.mp hx with rfl | hx
      · exact le_trans hacc (min_le_left x y)
      · rcases List.mem_cons.mp hx with rfl | hx
        · exact le_trans hacc (min_le_right a x)
        · exact ih (min a y) x (List.mem_cons_of_mem _ hx)

theorem Meter.updates_cons (m : Meter) (v : ℚ) (vs : List ℚ) :
    m.updates (v :: vs) = (m.update v).updates vs := rfl

/-- Folding with `updates` adds the number of observations to `count`. -/
theorem Meter.updates_count :
    ∀ (vals : List ℚ) (m : Meter),
      (m.updates vals).count = m.count + vals.length := by
  intro vals
  induction vals with
  | nil => intro m; simp [Meter.updates]
  | cons v vs ih =>
      intro m
      rw [Meter.updates_cons, ih]
      simp [Meter.update]
      omega

/-- Folding with `updates` adds the sum of the observations to `sum`. -/
theorem Meter.updates_sum :
    ∀ (vals : List ℚ) (m : Meter),
      (m.updates vals).sum = m.sum + vals.sum := by
  intro vals
  induction vals with
  | nil => intro m; simp [Meter.updates]
  | cons v vs ih =>
      intro m
      rw [Meter.updates_cons, ih]
      simp [Meter.update]
      ring

/-- Once `max` holds a value, `updates` folds `max` over the observations. -/
theorem Meter.updates_max :
    ∀ (vals : List ℚ) (m : Meter) (a : ℚ), m.max = some a →
      (m.updates vals).max = some (vals.foldl Max.max a) := by
  intro vals
  induction vals with
  | nil =>
      intro m a hm
      simpa [Meter.updates] using hm
  | cons v vs ih =>
      intro m a hm
      rw [Meter.updates_cons]
      have hstep : (m.update v).max = some (Max.max a v) := by
        rcases lt_or_ge a v with hc | hc
        · simp [Meter.update, hm, hc, max_eq_right (le_of_lt hc)]
        · simp [Meter.update, hm, not_lt.mpr hc, max_eq_left hc]
      rw [List.foldl_cons]
      exact ih (m.update v) (Max.max a v) hstep

/-- Once `min` holds a value, `updates` folds `min` over the observations. -/
theorem Meter.updates_min :
    ∀ (vals : List ℚ) (m : Meter) (a : ℚ), m.min = some a →
      (m.updates vals).min = some (vals.foldl Min.min a) := by
  intro vals
  induction vals with
  | nil =>
      intro m a hm
      simpa [Meter.updates] using hm
  | cons v vs ih =>
      intro m a hm
      rw [Meter.updates_cons]
      have hstep : (m.update v).min = some (Min.min a v) := by
        rcases lt_or_ge v a with hc | hc
        · simp [Meter.update, hm, hc, min_eq_right (le_of_lt hc)]
        · simp [Meter.update, hm, not_lt.mpr hc, min_eq_left hc]
      rw [List.foldl_cons]
      exact ih (m.update v) (Min.min a v) hstep

/-- C5: folding a non-empty sequence of observations into a fresh `Meter`
makes `average()` the arithmetic mean and `max`/`min` the sequence's true
maximum and minimum; `average()` on a fresh (or freshly reset) meter
raises `ZeroDivisionError`. -/
theorem meter_spec (vals : List ℚ) (h : vals ≠ []) :
    (Meter.reset.updates vals).average =
      Except.ok (vals.sum / (vals.length : ℚ)) ∧
    (∃ a, (Meter.reset.updates vals).max = some a ∧ a ∈ vals ∧
      ∀ x ∈ vals, x ≤ a) ∧
    (∃ b, (Meter.reset.updates vals).min = some b ∧ b ∈ vals ∧
      ∀ x ∈ vals, b ≤ x) ∧
    Meter.reset.average = Except.error "ZeroDivisionError: division by zero" := by
  obtain ⟨v, vs, rfl⟩ := List.exists_cons_of_ne_nil h
  have hcount : (Meter.reset.updates (v :: vs)).count = (v :: vs).length := by
    rw [Meter.updates_count]
    simp [Meter.reset]
  have hsum : (Meter.reset.updates (v :: vs)).sum = (v :: vs).sum := by
    rw [Meter.updates_sum]
    simp [Meter.reset]
  refine ⟨?_, ?_, ?_, rfl⟩
  · rw [Meter.average, if_neg (by rw [hcount]; simp), hcount, hsum]
  · refine ⟨vs.foldl max v, ?_, ?_, ?_⟩
    · rw [Meter.updates_cons]
      exact Meter.updates_max vs (Meter.reset.update v) v
        (by simp [Meter.update, Meter.reset])
    · exact foldl_max_mem vs v
    · intro x hx
      exact le_foldl_max vs v x hx
  · refine ⟨vs.foldl min v, ?_, ?_, ?_⟩
    · rw [Meter.updates_cons]
      exact Meter.updates_min vs (Meter.reset.update v) v
        (by simp [Meter.update, Meter.reset])
    · exact foldl_min_mem vs v
    · intro x hx
      exact foldl_min_le vs v x hx

/-- Witness for C5 on the observations `[3, 1, 2]`. -/
theorem meter_spec_witness :
    ([3, 1, 2] : List ℚ) ≠ [] ∧
    ((Meter.reset.updates [3, 1, 2]).average =
        Except.ok (([3, 1, 2] : List ℚ).sum / ((([3, 1, 2] : List ℚ).length : ℕ) : ℚ)) ∧
      (∃ a, (Meter.reset.updates [3, 1, 2]).max = some a ∧
        a ∈ ([3, 1, 2] : List ℚ) ∧ ∀ x ∈ ([3, 1, 2] : List ℚ), x ≤ a) ∧
      (∃ b, (Meter.reset.updates [3, 1, 2]).min = some b ∧
        b ∈ ([3, 1, 2] : List ℚ) ∧ ∀ x ∈ ([3, 1, 2] : List ℚ), b ≤ x) ∧
      Meter.reset.average =
        Except.error "ZeroDivisionError: division by zero") :=
  ⟨by decide, meter_spec [3, 1, 2] (by decide)⟩

/-- Prefix sums: entry `i` of `scanl (+) b xs` is `b` plus the sum of the
first `i` elements of `xs`. -/
theorem scanl_add_getElem :
    ∀ (xs : List ℚ) (b : ℚ) (i : ℕ) (h : i < (xs.scanl (· + ·) b).length),
      (xs.scanl (· + ·) b)[i] = b + (xs.take i).sum := by
  intro xs
  induction xs with
  | nil =>
      intro b i h
      simp only [List.scanl_nil] at h ⊢
      have hi : i = 0 := by
        simp only [List.length_singleton] at h
        omega
      subst hi
      simp
  | cons x xs ih =>
      intro b i h
      simp only [List.scanl_cons, List.singleton_append] at h ⊢
      cases i with
      | zero => simp
      | succ j =>
          rw [List.getElem_cons_succ, ih (b + x) j (by simpa using h)]
          rw [List.take_succ_cons, List.sum_cons]
          ring

/-- C7 counterexample: with a window larger than the data by more than one,
the result is empty (length `0`), while the claim's length formula
`len(data) - window + 1` gives the impossible `-1`. -/
theorem moving_average_len_cex :
    moving_average [1, 2] 4 = Except.ok [] ∧
    ¬ ((0 : ℤ) = ((([1, 2] : List ℚ).length : ℤ) - 4 + 1)) :=
  ⟨rfl, by decide⟩

/-- C7 amended: for a window `w ≥ 1`, `moving_average` succeeds and returns
the trailing-window means — entry `i` is the mean of the `w` consecutive
elements starting at index `i` — with length `len(data) + 1 - w`
(truncated at zero); the claim's formula `len(data) - w + 1` is recovered
whenever `w ≤ len(data) + 1`. -/
theorem moving_average_spec (data : List ℚ) (w : ℕ) (hw : 1 ≤ w) :
    ∃ out : List ℚ, moving_average data w = Except.ok out ∧
      out.length = data.length + 1 - w ∧
      (w ≤ data.length + 1 →
        (out.length : ℤ) = (data.length : ℤ) - (w : ℤ) + 1) ∧
      ∀ (i : ℕ) (hi : i < out.length),
        out.get ⟨i, hi⟩ = ((data.drop i).take w).sum / (w : ℚ) := by
  have hw0 : w ≠ 0 := by omega
  have hcslen : (cumsum data).length = data.length + 1 := by
    simp [cumsum, List.length_scanl]
  have hlen2 : ((cumsum data).drop w).length = data.length + 1 - w := by
    rw [List.length_drop, hcslen]
  have hlen3 : ((cumsum data).take ((cumsum data).length - w)).length
      = data.length + 1 - w := by
    rw [List.length_take, hcslen]
    omega
  refine ⟨((((cumsum data).drop w).zip
      ((cumsum data).take ((cumsum data).length - w))).map
        (fun p => p.1 - p.2)).map (fun d => d / (w : ℚ)), ?_, ?_, ?_, ?_⟩
  · show (npSub ((cumsum data).drop w)
        (if w = 0 then ([] : List ℚ)
          else (cumsum data).take ((cumsum data).length - w))).map
        (fun diffs => diffs.map fun d => d / (w : ℚ)) = _
    rw [if_neg hw0]
    simp only [npSub]
    rw [if_pos (by rw [hlen2, hlen3])]
    rfl
  · simp [List.length_map, List.length_zip, hlen2, hlen3]
  · intro hle
    simp only [List.length_map, List.length_zip, hlen2, hlen3, min_self]
    push_cast [Nat.cast_sub hle]
    ring
  · intro i hi
    have hi' : i < data.length + 1 - w := by
      simpa [List.length_map, List.length_zip, hlen2, hlen3] using hi
    rw [List.get_eq_getElem]
    simp only [List.getElem_map, List.getElem_zip]
    rw [List.getElem_drop, List.getElem_take]
    simp only [cumsum]
    rw [scanl_add_getElem data 0 (w + i)
        (by rw [List.length_scanl]; omega),
      scanl_add_getElem data 0 i (by rw [List.length_scanl]; omega)]
    rw [zero_add, zero_add]
    have hsplit : data.take (i + w) = data.take i ++ (data.drop i).take w :=
      List.take_add data i w
    rw [Nat.add_comm w i, hsplit, List.sum_append]
    ring

/-- Witness for C7 on `data = [1, 2, 3, 4]`, `w = 2`. -/
theorem moving_average_spec_witness :
    (1 ≤ 2) ∧
    (∃ out : List ℚ, moving_average [1, 2, 3, 4] 2 = Except.ok out ∧
      out.length = ([1, 2, 3, 4] : List ℚ).length + 1 - 2 ∧
      (2 ≤ ([1, 2, 3, 4] : List ℚ).length + 1 →
        (out.length : ℤ) = ((([1, 2, 3, 4] : List ℚ).length : ℤ)) - (2 : ℤ) + 1) ∧
      ∀ (i : ℕ) (hi : i < out.length),
        out.get ⟨i, hi⟩ =
          ((([1, 2, 3, 4] : List ℚ).drop i).take 2).sum / ((2 : ℕ) : ℚ)) :=
  ⟨by decide, moving_average_spec [1, 2, 3, 4] 2 (by decide)⟩

theorem TrainState.runBatches_cons (st : TrainState) (bch : List ℤ)
    (rest : List (List ℤ)) :
    st.runBatches (bch :: rest) = (st.stepCounters bch).runBatches rest := rfl

/-- One pass of the batch loop advances the step counter by the number of
batches, the sample counter by the total batch length, and leaves the
epoch counter alone. -/
theorem TrainState.runBatches_counters :
    ∀ (batches : List (List ℤ)) (st : TrainState),
      (st.runBatches batches).num_steps = st.num_steps + batches.length ∧
      (st.runBatches batches).num_samples =
        st.num_samples + (batches.map List.length).sum ∧
      (st.runBatches batches).num_epochs = st.num_epochs := by
  intro batches
  induction batches with
  | nil => intro st; simp [TrainState.runBatches]
  | cons bch rest ih =>
      intro st
      rw [TrainState.runBatches_cons]
      obtain ⟨h1, h2, h3⟩ := ih (st.stepCounters bch)
      refine ⟨?_, ?_, ?_⟩
      · rw [h1]
        simp [TrainState.stepCounters]
        omega
      · rw [h2]
        simp [TrainState.stepCounters]
        omega
      · rw [h3]
        rfl

/-- A full run of `num` epochs advances the counters deterministically. -/
theorem TrainState.run_counters :
    ∀ (num : ℕ) (st : TrainState) (loader : List (List ℤ)),
      (st.run num loader).num_steps = st.num_steps + num * loader.length ∧
      (st.run num loader).num_samples =
        st.num_samples + num * (loader.map List.length).sum ∧
      (st.run num loader).num_epochs = st.num_epochs + num := by
  intro num
  induction num with
  | zero => intro st loader; simp [TrainState.run]
  | succ n ih =>
      intro st loader
      rw [TrainState.run]
      obtain ⟨i1, i2, i3⟩ := ih ((st.runBatches loader).endEpoch) loader
      obtain ⟨b1, b2, b3⟩ := TrainState.runBatches_counters loader st
      refine ⟨?_, ?_, ?_⟩
      · rw [i1]
        simp [TrainState.endEpoch, b1]
        ring
      · rw [i2]
        simp [TrainState.endEpoch, b2]
        ring
      · rw [i3]
        simp [TrainState.endEpoch, b3]
        ring

/-- C2: the three progress counters start at zero, are advanced — never
decreased — by the run loop: each step adds `1` to `num_steps` and the
batch length to `num_samples`, one pass of the batch loop adds the batch
count and total sample count, a run of `num` epochs scales those by `num`
and adds `num` to `num_epochs`, and consuming epochs from the `epochs`
generator only ever adds the number of consumed indices to `num_epochs`. -/
theorem run_counters_spec (st : TrainState) (num : ℕ)
    (loader : List (List ℤ)) :
    TrainState.init.num_steps = 0 ∧ TrainState.init.num_samples = 0 ∧
    TrainState.init.num_epochs = 0 ∧
    (∀ inputs : List ℤ,
      (st.stepCounters inputs).num_steps = st.num_steps + 1 ∧
      (st.stepCounters inputs).num_samples = st.num_samples + inputs.length ∧
      (st.stepCounters inputs).num_epochs = st.num_epochs) ∧
    ((st.runBatches loader).num_steps = st.num_steps + loader.length ∧
      (st.runBatches loader).num_samples =
        st.num_samples + (loader.map List.length).sum ∧
      (st.runBatches loader).num_epochs = st.num_epochs) ∧
    ((st.run num loader).num_steps = st.num_steps + num * loader.length ∧
      (st.run num loader).num_samples =
        st.num_samples + num * (loader.map List.length).sum ∧
      (st.run num loader).num_epochs = st.num_epochs + num) ∧
    (st.num_steps ≤ (st.run num loader).num_steps ∧
      st.num_samples ≤ (st.run num loader).num_samples ∧
      st.num_epochs ≤ (st.run num loader).num_epochs) ∧
    (∀ n fuel : ℕ, ∃ ys : List ℤ,
      st.epochs (some n) fuel =
        Except.ok (ys, { st with num_epochs := st.num_epochs + ys.length }) ∧
      st.num_epochs ≤ st.num_epochs + ys.length) := by
  obtain ⟨r1, r2, r3⟩ := TrainState.run_counters num st loader
  refine ⟨rfl, rfl, rfl, ?_, TrainState.runBatches_counters loader st,
    ⟨r1, r2, r3⟩, ⟨?_, ?_, ?_⟩, ?_⟩
  · intro inputs
    exact ⟨rfl, rfl, rfl⟩
  · rw [r1]; exact Nat.le_add_right _ _
  · rw [r2]; exact Nat.le_add_right _ _
  · rw [r3]; exact Nat.le_add_right _ _
  · intro n fuel
    exact ⟨counterFuel fuel (st.num_epochs : ℤ)
      (some ((st.num_epochs : ℤ) + (n : ℤ))) 1, rfl, Nat.le_add_right _ _⟩

end Yann
